import Mathlib

/-!
Verification of the runtime translation support module of openSTB/i18n
(`src/openstb/i18n/support.py`).

The development shallowly embeds, in order:

* the locale-tag expansion used by the catalog search
  (`gettext._expand_lang`, which first canonicalises the tag through
  `locale.normalize`); the alias and encoding tables are finite fragments
  of the CPython tables restricted to the names exercised here, with
  unlisted names behaving as absent from the database, exactly as CPython
  treats names that are not in its tables;
* the message catalogs and the fallback-chain lookup semantics of
  `gettext.NullTranslations` / `gettext.GNUTranslations`
  (`gettext`, `ngettext`, `pgettext`, `npgettext`, `add_fallback`);
* the catalog search `_find_catalogs`, the per-domain chain rebuild
  `_DomainTranslations.set_languages`, the module-level state
  (`_languages`, `_domain_translations`), `set_languages` and
  `domain_translator`.

Filesystem access (`importlib.resources.files` / `Traversable.is_file`)
is abstracted as an `FS` record: `dirExists spec` models whether the
package `openstb.locale.<spec>.LC_MESSAGES` resolves (a `False` models
`ModuleNotFoundError`), and `moFile spec domain` models the first
existing `<domain>.mo` file found across the multiplexed resource roots,
`none` when no root has one.  A catalog file is `good` (parses into a
catalog) or `corrupt` (its `GNUTranslations` constructor raises).
-/

/-! ### String helpers shared by the embedded CPython functions

All separators used by the embedded code (`:@._-`) are single
characters, so the Python string operations are implemented over the
character list of the string; Lean's byte-indexed primitives are avoided
because they do not reduce inside the kernel. -/

/-- Association-list lookup, modelling a Python `dict.get` on the finite
tables embedded below. -/
def lookupIn (table : List (String × String)) (key : String) : Option String :=
  (table.find? (fun p => p.1 == key)).map (fun p => p.2)

/-- Python `c in s` for a single character. -/
def strContains (s : String) (c : Char) : Bool :=
  s.data.contains c

/-- Python `s.lower()` (the names involved are ASCII). -/
def strToLower (s : String) : String :=
  ⟨s.data.map Char.toLower⟩

/-- Python `s.replace(c, d)` for single-character pattern and
replacement. -/
def replaceChar (s : String) (c d : Char) : String :=
  ⟨s.data.map (fun x => if x == c then d else x)⟩

/-- Python `s.replace(c, "")` for a single-character pattern. -/
def removeChar (s : String) (c : Char) : String :=
  ⟨s.data.filter (fun x => x != c)⟩

/-- Python `s.split(c)` on a single-character separator. -/
def splitCharList (c : Char) : List Char → List (List Char)
  | [] => [[]]
  | x :: xs =>
    if x == c then [] :: splitCharList c xs
    else
      match splitCharList c xs with
      | [] => [[x]]
      | y :: ys => (x :: y) :: ys

/-- Python `s.split(c)` on a single-character separator. -/
def strSplit (s : String) (c : Char) : List String :=
  (splitCharList c s.data).map (fun l => ⟨l⟩)

/-- Python `s.split(c, 1)`: the part before the first occurrence of `c`
and the part after it (empty when `c` does not occur). -/
def splitLimit1 (s : String) (c : Char) : String × String :=
  (⟨s.data.takeWhile (fun x => x != c)⟩,
   ⟨(s.data.dropWhile (fun x => x != c)).drop 1⟩)

/-- Python `pos = s.find(c); (s[:pos], s[pos:])` when `c` occurs in `s`,
and `(s, "")` otherwise.  The separator is kept at the front of the
second component, as in `gettext._expand_lang`. -/
def splitOff (s : String) (c : Char) : String × String :=
  (⟨s.data.takeWhile (fun x => x != c)⟩,
   ⟨s.data.dropWhile (fun x => x != c)⟩)

/-! ### Fragments of the CPython locale databases

Each table is the fragment of the corresponding CPython table
(`locale.locale_alias`, `encodings.aliases.aliases`,
`locale.locale_encoding_alias`) containing the entries that the locale
names appearing in this development can consult; a name that is not
listed behaves exactly as a name absent from the CPython table. -/

/-- Fragment of `locale.locale_alias`. -/
def localeAlias : List (String × String) :=
  [("c", "C"),
   ("de", "de_DE.ISO8859-1"),
   ("en", "en_US.ISO8859-1"),
   ("en_nz", "en_NZ.ISO8859-1")]

/-- Fragment of `encodings.aliases.aliases`. -/
def encodingsAliases : List (String × String) :=
  [("utf8", "utf_8"),
   ("utf", "utf_8"),
   ("latin1", "latin_1"),
   ("latin", "latin_1")]

/-- Fragment of `locale.locale_encoding_alias`. -/
def localeEncodingAlias : List (String × String) :=
  [("utf_8", "UTF-8"),
   ("latin_1", "ISO8859-1"),
   ("ascii", "ISO8859-1"),
   ("iso8859_1", "ISO8859-1"),
   ("iso8859_15", "ISO8859-15")]

/-! ### `locale.normalize` and its helpers -/

/-- One step of `encodings.normalize_encoding`: the fold state is the
accumulated characters (reversed) and the pending-punctuation flag. -/
def normalizeEncodingStep (st : List Char × Bool) (c : Char) : List Char × Bool :=
  if c.isAlphanum || c == '.' then
    let chars := if st.2 && !st.1.isEmpty then '_' :: st.1 else st.1
    let chars := if c.toNat < 128 then c :: chars else chars
    (chars, false)
  else (st.1, true)

/-- `encodings.normalize_encoding`: drop punctuation, joining alphanumeric
runs with a single underscore. -/
def normalizeEncoding (encoding : String) : String :=
  ⟨(encoding.data.foldl normalizeEncodingStep ([], false)).1.reverse⟩

/-- `locale._replace_encoding(code, encoding)`. -/
def replaceEncoding (code encoding : String) : String :=
  let langname := if strContains code '.' then (splitLimit1 code '.').1 else code
  let normEncoding0 := normalizeEncoding encoding
  let normEncoding1 := (lookupIn encodingsAliases (strToLower normEncoding0)).getD normEncoding0
  let normEncoding2 := strToLower normEncoding1
  let enc :=
    match lookupIn localeEncodingAlias normEncoding2 with
    | some e => e
    | none =>
      match lookupIn localeEncodingAlias (removeChar (removeChar normEncoding2 '_') '-') with
      | some e => e
      | none => normEncoding1
  langname ++ "." ++ enc

/-- `locale._append_modifier(code, modifier)`. -/
def appendModifier (code modifier : String) : String :=
  if modifier == "euro" then
    if !strContains code '.' then code ++ ".ISO8859-15"
    else
      let encoding := (splitLimit1 code '.').2
      if encoding == "ISO8859-15" || encoding == "UTF-8" then code
      else if encoding == "ISO8859-1" then replaceEncoding code "ISO8859-15"
      else code ++ "@" ++ modifier
  else code ++ "@" ++ modifier

/-- The `if encoding:` block of `locale.normalize` (third and fourth
alias-table tries), falling back to the unmodified input name. -/
def localeNormalizeEncTries (localename langname encoding modifier : String) : String :=
  if encoding ≠ "" then
    let lookupName := if modifier ≠ "" then langname ++ "@" ++ modifier else langname
    match lookupIn localeAlias lookupName with
    | some code =>
      if !strContains code '@' then replaceEncoding code encoding
      else
        let (c, m) := splitLimit1 code '@'
        replaceEncoding c encoding ++ "@" ++ m
    | none =>
      if modifier ≠ "" then
        match lookupIn localeAlias langname with
        | some code =>
          if !strContains code '@' then replaceEncoding (appendModifier code modifier) encoding
          else
            let (c, defmod) := splitLimit1 code '@'
            if strToLower defmod == modifier then replaceEncoding c encoding ++ "@" ++ defmod
            else localename
        | none => localename
      else localename
  else localename

/-- `locale.normalize(localename)`: canonicalise a locale name through the
alias database, returning the input unchanged when no alias applies. -/
def localeNormalize (localename : String) : String :=
  let code0 := strToLower localename
  let code1 := if strContains code0 ':' then replaceChar code0 ':' '.' else code0
  let (code2, modifier) :=
    if strContains code1 '@' then splitLimit1 code1 '@' else (code1, "")
  let (langname, encoding) :=
    if strContains code2 '.' then
      match strSplit code2 '.' with
      | a :: b :: _ => (a, b)
      | [a] => (a, "")
      | [] => (code2, "")
    else (code2, "")
  let langEnc :=
    if encoding ≠ "" then
      langname ++ "." ++ removeChar (removeChar encoding '-') '_'
    else langname
  let lookupName := if modifier ≠ "" then langEnc ++ "@" ++ modifier else langEnc
  match lookupIn localeAlias lookupName with
  | some code => code
  | none =>
    if modifier ≠ "" then
      match lookupIn localeAlias langEnc with
      | some code =>
        if !strContains code '@' then appendModifier code modifier
        else if strToLower (splitLimit1 code '@').2 == modifier then code
        else localeNormalizeEncTries localename langname encoding modifier
      | none => localeNormalizeEncTries localename langname encoding modifier
    else localeNormalizeEncTries localename langname encoding modifier

/-! ### `gettext._expand_lang` -/

/-- `gettext._expand_lang(loc)`: normalise the tag, split it into
language, territory, codeset and modifier components, and produce the
combinations from most to least specific. -/
def expandLang (loc0 : String) : List String :=
  let loc1 := localeNormalize loc0
  let (loc2, modifier) := splitOff loc1 '@'
  let (loc3, codeset) := splitOff loc2 '.'
  let (language, territory) := splitOff loc3 '_'
  let maskModifier := if modifier ≠ "" then 4 else 0
  let maskCodeset := if codeset ≠ "" then 1 else 0
  let maskTerritory := if territory ≠ "" then 2 else 0
  let mask := maskModifier + maskTerritory + maskCodeset
  let ret := (List.range (mask + 1)).filterMap (fun i =>
    if i &&& mask == i then
      let val := language
      let val := if i &&& 2 ≠ 0 then val ++ territory else val
      let val := if i &&& 1 ≠ 0 then val ++ codeset else val
      let val := if i &&& 4 ≠ 0 then val ++ modifier else val
      some val
    else none)
  ret.reverse


/-! ### Message catalogs and translation objects

`gettext.GNUTranslations` keeps one dictionary `_catalog` whose keys are
plain strings (singular entries, and context entries keyed by
`context + "\x04" + message`) and pairs `(msgid, plural-form-index)`
(plural entries, possibly context-qualified), plus a plural-rule
function parsed from the catalog header.  The two key shapes are kept in
two association lists here.  A translation object is a linked chain of
translation instances connected through `_fallback`; the chain is
represented as the list of its nodes in order, the empty tail standing
for `_fallback is None`. -/

/-- The decoded contents of one compiled catalog. -/
structure GNUCatalog where
  catalog : List (String × String)
  pluralCatalog : List ((String × Nat) × String)
  plural : Int → Nat

/-- One node of a translation fallback chain: a `gettext.NullTranslations`
or a `gettext.GNUTranslations` holding a decoded catalog. -/
inductive Entry where
  | null : Entry
  | gnu : GNUCatalog → Entry

/-- A translation object: the nodes of its `_fallback` chain in order. -/
abbrev Chain := List Entry

/-- Lookup in the string-keyed part of a `_catalog` dictionary. -/
def catalogFind (c : GNUCatalog) (key : String) : Option String :=
  (c.catalog.find? (fun p => p.1 == key)).map (fun p => p.2)

/-- Lookup in the pair-keyed (plural) part of a `_catalog` dictionary. -/
def pluralFind (c : GNUCatalog) (key : String) (idx : Nat) : Option String :=
  (c.pluralCatalog.find? (fun p => p.1.1 == key && p.1.2 == idx)).map (fun p => p.2)

/-- `GNUTranslations.CONTEXT % (context, message)`: the key of a
context-qualified entry. -/
def contextKey (context message : String) : String :=
  context ++ "\x04" ++ message

/-- `gettext(message)` on a translation chain: a `NullTranslations` node
defers to its fallback when it has one, a `GNUTranslations` node answers
from its catalog and otherwise defers; a node with no fallback returns
the message itself. -/
def chainGettext : Chain → String → String
  | [], message => message
  | .null :: fb, message =>
    match fb with
    | [] => message
    | _ :: _ => chainGettext fb message
  | .gnu c :: fb, message =>
    match catalogFind c message with
    | some t => t
    | none =>
      match fb with
      | [] => message
      | _ :: _ => chainGettext fb message

/-- `ngettext(singular, plural, n)` on a translation chain; with no
answering node the singular is returned when `n == 1` and the plural
otherwise. -/
def chainNgettext : Chain → String → String → Int → String
  | [], s, p, n => if n == 1 then s else p
  | .null :: fb, s, p, n =>
    match fb with
    | [] => if n == 1 then s else p
    | _ :: _ => chainNgettext fb s p n
  | .gnu c :: fb, s, p, n =>
    match pluralFind c s (c.plural n) with
    | some t => t
    | none =>
      match fb with
      | [] => if n == 1 then s else p
      | _ :: _ => chainNgettext fb s p n

/-- `pgettext(context, message)` on a translation chain. -/
def chainPgettext : Chain → String → String → String
  | [], _, message => message
  | .null :: fb, context, message =>
    match fb with
    | [] => message
    | _ :: _ => chainPgettext fb context message
  | .gnu c :: fb, context, message =>
    match catalogFind c (contextKey context message) with
    | some t => t
    | none =>
      match fb with
      | [] => message
      | _ :: _ => chainPgettext fb context message

/-- `npgettext(context, singular, plural, n)` on a translation chain. -/
def chainNpgettext : Chain → String → String → String → Int → String
  | [], _, s, p, n => if n == 1 then s else p
  | .null :: fb, context, s, p, n =>
    match fb with
    | [] => if n == 1 then s else p
    | _ :: _ => chainNpgettext fb context s p n
  | .gnu c :: fb, context, s, p, n =>
    match pluralFind c (contextKey context s) (c.plural n) with
    | some t => t
    | none =>
      match fb with
      | [] => if n == 1 then s else p
      | _ :: _ => chainNpgettext fb context s p n

/-! ### The catalog search (`_find_catalogs`) -/

/-- A catalog file found in the package resources: either its contents
decode into a catalog, or the file is corrupt and constructing
`GNUTranslations` from it raises. -/
inductive CatFile where
  | good : GNUCatalog → CatFile
  | corrupt : CatFile

/-- The package-resource view used by the search.  `dirExists spec`
models whether `importlib.resources.files` resolves the package
`openstb.locale.<spec>.LC_MESSAGES` (`false` models
`ModuleNotFoundError`); `moFile spec domain` models
`lc_messages.joinpath(f"{domain}.mo")` followed by `is_file()`, i.e. the
first existing `<domain>.mo` across the multiplexed resource roots, or
`none` when no root holds one. -/
structure FS where
  dirExists : String → Bool
  moFile : String → String → Option CatFile

/-- The inner loop of `_find_catalogs` over the expanded variants of one
language tag: on the variant `"C"` a `None` sentinel is recorded and the
loop breaks; a variant whose locale package is missing is skipped; a
variant with an existing catalog file records it and the loop continues
with the remaining variants. -/
def searchSpecs (fs : FS) (domain : String) : List String → List (Option CatFile)
  | [] => []
  | spec :: rest =>
    if spec == "C" then [none]
    else if fs.dirExists spec then
      match fs.moFile spec domain with
      | some catalog => some catalog :: searchSpecs fs domain rest
      | none => searchSpecs fs domain rest
    else searchSpecs fs domain rest

/-- `_find_catalogs(languages, domain)`: the outer loop over the
preferred languages, each expanded by `expandLang` and searched by
`searchSpecs`; the results of the per-language searches are
concatenated in order. -/
def findCatalogs (fs : FS) (languages : List String) (domain : String) :
    List (Option CatFile) :=
  match languages with
  | [] => []
  | language :: rest =>
    searchSpecs fs domain (expandLang language) ++ findCatalogs fs rest domain

/-! ### Per-domain chain rebuild (`_DomainTranslations.set_languages`) -/

/-- Loading one search result: the `None` sentinel becomes a
`NullTranslations`, a good file becomes a `GNUTranslations`, and a
corrupt file raises (`none`). -/
def loadEntry : Option CatFile → Option Entry
  | none => some Entry.null
  | some (CatFile.good c) => some (Entry.gnu c)
  | some CatFile.corrupt => none

/-- The loop body of `_DomainTranslations.set_languages`:
`translations` is the current value of the `self.translations`
attribute (`none` when it was never assigned), `isBase` the `is_base`
flag.  The first loaded entry replaces the attribute, later entries are
appended to the end of its chain by `add_fallback`; a load failure
aborts the loop, leaving the attribute at whatever it holds, and the
second component reports that the exception escaped. -/
def setLanguagesGo (translations : Option Chain) (isBase : Bool) :
    List (Option CatFile) → Option Chain × Bool
  | [] => (translations, false)
  | p :: rest =>
    match loadEntry p with
    | none => (translations, true)
    | some e =>
      if isBase then setLanguagesGo (some [e]) false rest
      else setLanguagesGo (translations.map (fun c => c ++ [e])) false rest

/-- `_DomainTranslations.set_languages(self)` for a domain whose
`self.translations` currently holds `translations`, under the language
preference `languages`. -/
def domainSetLanguages (fs : FS) (languages : List String) (domain : String)
    (translations : Option Chain) : Option Chain × Bool :=
  setLanguagesGo translations true (findCatalogs fs languages domain)

/-! ### Module-level state (`_languages`, `_domain_translations`) -/

/-- The process-wide state of the module: the current language
preference `_languages` and the registry `_domain_translations`, an
insertion-ordered mapping from each loaded domain to the current value
of its `_DomainTranslations.translations` attribute (`none` when the
attribute was never assigned). -/
structure I18nState where
  languages : List String
  domains : List (String × Option Chain)

/-- The state at import time: `_languages = ["C"]`, no domains. -/
def initState : I18nState :=
  { languages := ["C"], domains := [] }

/-- The environment loop of `set_languages`: the first of `LANGUAGE`,
`LC_ALL`, `LC_MESSAGES`, `LANG` that is set and non-empty is split on
`":"`; when none is, the cleared list stays empty. -/
def envLanguagesGo (env : String → Option String) : List String → List String
  | [] => []
  | name :: rest =>
    match env name with
    | some v => if v ≠ "" then strSplit v ':' else envLanguagesGo env rest
    | none => envLanguagesGo env rest

/-- The language list `set_languages` derives from the environment when
it is called with no arguments. -/
def envLanguages (env : String → Option String) : List String :=
  envLanguagesGo env ["LANGUAGE", "LC_ALL", "LC_MESSAGES", "LANG"]

/-- The tail of `set_languages`: append the universal tag `"C"` unless
it is already present. -/
def withUniversal (languages : List String) : List String :=
  if languages.contains "C" then languages else languages ++ ["C"]

/-- The new value of `_languages` computed by `set_languages(*args)`
under the environment `env`. -/
def computeLanguages (args : List String) (env : String → Option String) :
    List String :=
  withUniversal (if args.isEmpty then envLanguages env else args)

/-- The update loop of `set_languages` over the registry: each domain's
chain is rebuilt in order; a rebuild whose catalog load raises stops the
loop there (the exception propagates), leaving the remaining entries
untouched. -/
def rebuildDomains (fs : FS) (languages : List String) :
    List (String × Option Chain) → List (String × Option Chain) × Bool
  | [] => ([], false)
  | (d, tr) :: rest =>
    let res := domainSetLanguages fs languages d tr
    if res.2 then ((d, res.1) :: rest, true)
    else
      let tail := rebuildDomains fs languages rest
      ((d, res.1) :: tail.1, tail.2)

/-- `set_languages(*args)`: update `_languages`, then synchronously
rebuild every registered domain.  The second component reports whether
an exception escaped (in which case the call did not return normally). -/
def setLanguages (fs : FS) (env : String → Option String) (args : List String)
    (st : I18nState) : I18nState × Bool :=
  let languages := computeLanguages args env
  let rebuilt := rebuildDomains fs languages st.domains
  ({ languages := languages, domains := rebuilt.1 }, rebuilt.2)

/-- Registry lookup: the `translations` attribute of the
`_DomainTranslations` registered for `domain`, or `none` when the
domain was never registered. -/
def lookupDomain (domains : List (String × Option Chain)) (domain : String) :
    Option (Option Chain) :=
  (domains.find? (fun p => p.1 == domain)).map (fun p => p.2)

/-- `domain_translator(domain, ...)`: register the domain on first
request by constructing a `_DomainTranslations` (whose `__init__` runs
the chain build); when that construction raises, nothing is registered
and the exception escapes (second component `true`).  The returned
translator functions are bound methods of the registry entry, so a
translator is identified by its domain name and reads the entry's
current chain on every call. -/
def domainTranslator (fs : FS) (st : I18nState) (domain : String) :
    I18nState × Bool :=
  match lookupDomain st.domains domain with
  | some _ => (st, false)
  | none =>
    let res := domainSetLanguages fs st.languages domain none
    if res.2 then (st, true)
    else ({ languages := st.languages,
            domains := st.domains ++ [(domain, res.1)] }, false)

/-! ### Calling a previously issued translator

A translator handed out by `domain_translator` is a bound method of the
registry's `_DomainTranslations` object; calling it reads the object's
current `translations` attribute.  The result is `none` when the call
would raise: the domain is not registered (the bound method cannot
exist) or the attribute was never assigned. -/

/-- Calling a `gettext` translator for `domain` against state `st`. -/
def callGettext (st : I18nState) (domain message : String) : Option String :=
  match lookupDomain st.domains domain with
  | none => none
  | some none => none
  | some (some chain) => some (chainGettext chain message)

/-- Calling an `ngettext` translator for `domain` against state `st`. -/
def callNgettext (st : I18nState) (domain s p : String) (n : Int) : Option String :=
  match lookupDomain st.domains domain with
  | none => none
  | some none => none
  | some (some chain) => some (chainNgettext chain s p n)

/-- Calling a `pgettext` translator for `domain` against state `st`. -/
def callPgettext (st : I18nState) (domain context message : String) : Option String :=
  match lookupDomain st.domains domain with
  | none => none
  | some none => none
  | some (some chain) => some (chainPgettext chain context message)

/-- Calling an `npgettext` translator for `domain` against state `st`. -/
def callNpgettext (st : I18nState) (domain context s p : String) (n : Int) :
    Option String :=
  match lookupDomain st.domains domain with
  | none => none
  | some none => none
  | some (some chain) => some (chainNpgettext chain context s p n)

/-- The states reachable through the public interface: the import-time
state, followed by any sequence of `set_languages` calls and translator
requests, each against an arbitrary environment and package-resource
view. -/
inductive Reachable : I18nState → Prop where
  | init : Reachable initState
  | set (fs : FS) (env : String → Option String) (args : List String)
      (st : I18nState) : Reachable st → Reachable (setLanguages fs env args st).1
  | translator (fs : FS) (domain : String) (st : I18nState) :
      Reachable st → Reachable (domainTranslator fs st domain).1

/-! ### Concrete fixtures used by witnesses and counterexamples

The locale names `xx`, `xx_YY`, `yy` and `ZZ` are not in the CPython
alias database, so `locale.normalize` returns them unchanged. -/

/-- The default plural rule of `GNUTranslations`
(`self.plural = lambda n: int(n != 1)`). -/
def plural1 : Int → Nat := fun n => if n == 1 then 0 else 1

/-- A catalog for the locale `xx` translating the message `"msg"`. -/
def catXX : GNUCatalog :=
  { catalog := [("msg", "xx says msg")],
    pluralCatalog := [(("msg", 0), "xx one msg"), (("msg", 1), "xx many msg")],
    plural := plural1 }

/-- A catalog for the locale `xx_YY` translating the message `"msg"`. -/
def catXXYY : GNUCatalog :=
  { catalog := [("msg", "xx_YY says msg")],
    pluralCatalog := [],
    plural := plural1 }

/-- A resource view with no locale packages at all. -/
def fsEmpty : FS :=
  { dirExists := fun _ => false, moFile := fun _ _ => none }

/-- A resource view holding one catalog for domain `dom` under locale
`xx`. -/
def fsXX : FS :=
  { dirExists := fun spec => spec == "xx",
    moFile := fun spec domain =>
      if spec == "xx" && domain == "dom" then some (CatFile.good catXX) else none }

/-- A resource view holding catalogs for domain `dom` under both the
locale `xx_YY` and its less specific variant `xx`. -/
def fsVariants : FS :=
  { dirExists := fun spec => spec == "xx_YY" || spec == "xx",
    moFile := fun spec domain =>
      if domain == "dom" then
        if spec == "xx_YY" then some (CatFile.good catXXYY)
        else if spec == "xx" then some (CatFile.good catXX)
        else none
      else none }

/-- A resource view where the catalog for locale `xx` is good and the
catalog for locale `yy` is corrupt. -/
def fsCorrupt : FS :=
  { dirExists := fun spec => spec == "xx" || spec == "yy",
    moFile := fun spec domain =>
      if domain == "dom" then
        if spec == "xx" then some (CatFile.good catXX)
        else if spec == "yy" then some CatFile.corrupt
        else none
      else none }

/-- An environment with none of the four variables set. -/
def envNone : String → Option String := fun _ => none

/-- An environment with only `LC_ALL` set, to `"de:fr"`. -/
def envLCAll : String → Option String :=
  fun name => if name == "LC_ALL" then some "de:fr" else none

/-- The state after requesting a translator for domain `dom` at import
time with no catalogs installed: the registry holds `dom` with the
identity chain. -/
def stOneDomain : I18nState := (domainTranslator fsEmpty initState "dom").1

/-! ### Lemmas about the expansion and the search -/

/-- The universal tag expands to itself alone. -/
lemma expandLang_C : expandLang "C" = ["C"] := by decide

/-- The docstring example of `_find_catalogs`. -/
lemma expandLang_en_NZ :
    expandLang "en_NZ.UTF-8" = ["en_NZ.UTF-8", "en_NZ", "en.UTF-8", "en"] := by decide

/-- A variant list containing the universal tag yields a non-empty
search result. -/
lemma searchSpecs_ne_nil (fs : FS) (dom : String) (specs : List String)
    (h : "C" ∈ specs) : searchSpecs fs dom specs ≠ [] := by
  induction specs with
  | nil => cases h
  | cons spec rest ih =>
    by_cases hs : spec = "C"
    · subst hs
      simp [searchSpecs]
    · have hb : (spec == "C") = false := by simpa using hs
      have hrest : "C" ∈ rest := by
        rcases List.mem_cons.mp h with h1 | h2
        · exact absurd h1.symm hs
        · exact h2
      cases hd : fs.dirExists spec with
      | false => simpa [searchSpecs, hb, hd] using ih hrest
      | true =>
        cases hm : fs.moFile spec dom with
        | none => simpa [searchSpecs, hb, hd, hm] using ih hrest
        | some c => simp [searchSpecs, hb, hd, hm]

/-- A preference containing the universal tag yields a non-empty catalog
list. -/
lemma findCatalogs_ne_nil (fs : FS) (langs : List String) (dom : String)
    (h : "C" ∈ langs) : findCatalogs fs langs dom ≠ [] := by
  induction langs with
  | nil => cases h
  | cons lang rest ih =>
    rcases List.mem_cons.mp h with h1 | h2
    · subst h1
      show searchSpecs fs dom (expandLang "C") ++ findCatalogs fs rest dom ≠ []
      rw [expandLang_C]
      simp [searchSpecs]
    · intro hemp
      rw [findCatalogs, List.append_eq_nil] at hemp
      exact ih h2 hemp.2

/-- With no catalog file installed for the domain, every search result
is the `None` sentinel. -/
lemma searchSpecs_all_none (fs : FS) (dom : String) (specs : List String)
    (h : ∀ spec ∈ specs, fs.moFile spec dom = none) :
    ∀ e ∈ searchSpecs fs dom specs, e = none := by
  induction specs with
  | nil => intro e he; cases he
  | cons spec rest ih =>
    have hrest : ∀ s ∈ rest, fs.moFile s dom = none :=
      fun s hs => h s (List.mem_cons_of_mem _ hs)
    by_cases hs : spec = "C"
    · subst hs
      intro e he
      simp [searchSpecs] at he
      exact he
    · have hb : (spec == "C") = false := by simpa using hs
      have hm : fs.moFile spec dom = none := h spec (List.mem_cons_self spec rest)
      cases hd : fs.dirExists spec with
      | false =>
        intro e he
        exact ih hrest e (by simpa [searchSpecs, hb, hd] using he)
      | true =>
        intro e he
        exact ih hrest e (by simpa [searchSpecs, hb, hd, hm] using he)

/-- With no catalog file installed for the domain under any preferred
language, every entry of the catalog list is the `None` sentinel. -/
lemma findCatalogs_all_none (fs : FS) (langs : List String) (dom : String)
    (h : ∀ l ∈ langs, ∀ spec ∈ expandLang l, fs.moFile spec dom = none) :
    ∀ e ∈ findCatalogs fs langs dom, e = none := by
  induction langs with
  | nil => intro e he; cases he
  | cons lang rest ih =>
    intro e he
    rw [findCatalogs] at he
    rcases List.mem_append.mp he with h1 | h2
    · exact searchSpecs_all_none fs dom _ (h lang (List.mem_cons_self lang rest)) e h1
    · exact ih (fun l hl => h l (List.mem_cons_of_mem _ hl)) e h2

/-! ### Lemmas about the chain rebuild loop -/

/-- Once the `translations` attribute holds a non-empty chain, it holds
a non-empty chain after any further steps of the rebuild loop,
exceptions included. -/
lemma setLanguagesGo_keep (paths : List (Option CatFile)) :
    ∀ (tr : Option Chain) (isBase : Bool) (c : Chain), tr = some c → c ≠ [] →
      ∃ c2, (setLanguagesGo tr isBase paths).1 = some c2 ∧ c2 ≠ [] := by
  induction paths with
  | nil =>
    intro tr isBase c htr hc
    exact ⟨c, by simpa [setLanguagesGo] using htr, hc⟩
  | cons p rest ih =>
    intro tr isBase c htr hc
    cases hp : loadEntry p with
    | none =>
      refine ⟨c, ?_, hc⟩
      simpa [setLanguagesGo, hp] using htr
    | some e =>
      cases isBase with
      | true =>
        have := ih (some [e]) false [e] rfl (by simp)
        simpa [setLanguagesGo, hp] using this
      | false =>
        have := ih (tr.map (fun ch => ch ++ [e])) false (c ++ [e])
          (by rw [htr]; rfl) (by simp)
        simpa [setLanguagesGo, hp] using this

/-- A rebuild over a non-empty catalog list that raises no exception
leaves the attribute holding a non-empty chain, whatever it held
before. -/
lemma setLanguagesGo_fresh (paths : List (Option CatFile)) (tr : Option Chain)
    (hne : paths ≠ []) (hok : (setLanguagesGo tr true paths).2 = false) :
    ∃ c2, (setLanguagesGo tr true paths).1 = some c2 ∧ c2 ≠ [] := by
  cases paths with
  | nil => exact absurd rfl hne
  | cons p rest =>
    cases hp : loadEntry p with
    | none =>
      rw [show setLanguagesGo tr true (p :: rest) = (tr, true) by
        simp [setLanguagesGo, hp]] at hok
      cases hok
    | some e =>
      have := setLanguagesGo_keep rest (some [e]) false [e] rfl (by simp)
      simpa [setLanguagesGo, hp] using this

/-- A rebuild loop fed only `None` sentinels, continuing from an
all-identity attribute, keeps an all-identity non-empty chain and raises
nothing. -/
lemma setLanguagesGo_all_null (paths : List (Option CatFile)) :
    ∀ c : Chain, (∀ p ∈ paths, p = none) → c ≠ [] → (∀ e ∈ c, e = Entry.null) →
      ∃ c2, setLanguagesGo (some c) false paths = (some c2, false) ∧ c2 ≠ [] ∧
        ∀ e ∈ c2, e = Entry.null := by
  induction paths with
  | nil =>
    intro c _ hc hnull
    exact ⟨c, by simp [setLanguagesGo], hc, hnull⟩
  | cons p rest ih =>
    intro c hp hc hnull
    have hp0 : p = none := hp p (List.mem_cons_self p rest)
    subst hp0
    have hrest : ∀ q ∈ rest, q = none := fun q hq => hp q (List.mem_cons_of_mem _ hq)
    have hnull2 : ∀ e ∈ c ++ [Entry.null], e = Entry.null := by
      intro e he
      rcases List.mem_append.mp he with h1 | h2
      · exact hnull e h1
      · simpa using h2
    have := ih (c ++ [Entry.null]) hrest (by simp) hnull2
    simpa [setLanguagesGo, loadEntry] using this

/-- A rebuild fed a non-empty catalog list of only `None` sentinels
produces an all-identity, non-empty chain. -/
lemma setLanguagesGo_top_all_null (paths : List (Option CatFile)) (tr : Option Chain)
    (hne : paths ≠ []) (hp : ∀ p ∈ paths, p = none) :
    ∃ c2, setLanguagesGo tr true paths = (some c2, false) ∧ c2 ≠ [] ∧
      ∀ e ∈ c2, e = Entry.null := by
  cases paths with
  | nil => exact absurd rfl hne
  | cons p rest =>
    have hp0 : p = none := hp p (List.mem_cons_self p rest)
    subst hp0
    have hrest : ∀ q ∈ rest, q = none := fun q hq => hp q (List.mem_cons_of_mem _ hq)
    have := setLanguagesGo_all_null rest [Entry.null] hrest (by simp) (by simp)
    simpa [setLanguagesGo, loadEntry] using this

/-- `gettext` through a non-empty chain of identity nodes returns the
message unchanged. -/
lemma chainGettext_all_null (chain : Chain) (m : String) (hne : chain ≠ [])
    (hnull : ∀ e ∈ chain, e = Entry.null) : chainGettext chain m = m := by
  induction chain with
  | nil => exact absurd rfl hne
  | cons e rest ih =>
    have he : e = Entry.null := hnull e (List.mem_cons_self e rest)
    subst he
    cases rest with
    | nil => simp [chainGettext]
    | cons f rest2 =>
      have := ih (by simp) (fun x hx => hnull x (List.mem_cons_of_mem _ hx))
      simpa [chainGettext] using this

/-- A rebuild loop none of whose catalog files is corrupt appends every
loaded entry to the running chain and raises nothing. -/
lemma setLanguagesGo_append_ok (paths : List (Option CatFile)) :
    ∀ c : Chain, (∀ p ∈ paths, p ≠ some CatFile.corrupt) →
      setLanguagesGo (some c) false paths =
        (some (c ++ paths.filterMap loadEntry), false) := by
  induction paths with
  | nil => intro c _; simp [setLanguagesGo]
  | cons p rest ih =>
    intro c h
    have hrest : ∀ q ∈ rest, q ≠ some CatFile.corrupt :=
      fun q hq => h q (List.mem_cons_of_mem _ hq)
    have hp : p ≠ some CatFile.corrupt := h p (List.mem_cons_self p rest)
    match p with
    | none =>
      have := ih (c ++ [Entry.null]) hrest
      simpa [setLanguagesGo, loadEntry, List.filterMap_cons] using this
    | some (CatFile.good g) =>
      have := ih (c ++ [Entry.gnu g]) hrest
      simpa [setLanguagesGo, loadEntry, List.filterMap_cons] using this
    | some CatFile.corrupt => exact absurd rfl hp

/-! ### Lemmas about the registry -/

/-- A registry rebuild from which no exception escaped rebuilt every
entry in place with the new language preference. -/
lemma rebuildDomains_ok (fs : FS) (langs : List String)
    (ds : List (String × Option Chain)) (h : (rebuildDomains fs langs ds).2 = false) :
    (rebuildDomains fs langs ds).1 =
      ds.map (fun p => (p.1, (domainSetLanguages fs langs p.1 p.2).1)) := by
  induction ds with
  | nil => simp [rebuildDomains]
  | cons p rest ih =>
    obtain ⟨d, tr⟩ := p
    cases hres : (domainSetLanguages fs langs d tr).2 with
    | true =>
      rw [show (rebuildDomains fs langs ((d, tr) :: rest)).2 = true by
        simp [rebuildDomains, hres]] at h
      cases h
    | false =>
      have htail : (rebuildDomains fs langs rest).2 = false := by
        rw [show (rebuildDomains fs langs ((d, tr) :: rest)).2 =
          (rebuildDomains fs langs rest).2 by simp [rebuildDomains, hres]] at h
        exact h
      simp [rebuildDomains, hres, ih htail]

/-- Registry lookup through an in-place update of every value. -/
lemma lookupDomain_map (ds : List (String × Option Chain))
    (f : String → Option Chain → Option Chain) (d : String) :
    lookupDomain (ds.map (fun p => (p.1, f p.1 p.2))) d =
      Option.map (f d) (lookupDomain ds d) := by
  induction ds with
  | nil => simp [lookupDomain]
  | cons p rest ih =>
    obtain ⟨k, tr⟩ := p
    cases hk : (k == d) with
    | true =>
      have : k = d := by simpa using hk
      subst this
      simp [lookupDomain, List.find?]
    | false => simpa [lookupDomain, List.find?, hk] using ih

/-- Registry lookup through an append: the left entries shadow the
right ones. -/
lemma lookupDomain_append (l1 l2 : List (String × Option Chain)) (d : String) :
    lookupDomain (l1 ++ l2) d =
      match lookupDomain l1 d with
      | some x => some x
      | none => lookupDomain l2 d := by
  induction l1 with
  | nil => simp [lookupDomain]
  | cons p rest ih =>
    obtain ⟨k, tr⟩ := p
    cases hk : (k == d) with
    | true => simp [lookupDomain, List.find?, hk]
    | false => simpa [lookupDomain, List.find?, hk] using ih

/-! ### The reachable-state invariant -/

/-- A good registry entry: its `translations` attribute is set and
holds a non-empty chain. -/
def GoodEntry (tr : Option Chain) : Prop :=
  ∃ c, tr = some c ∧ c ≠ []

/-- The invariant maintained by the public interface: the preference
contains the universal tag, and every registered domain is good. -/
def GoodState (st : I18nState) : Prop :=
  "C" ∈ st.languages ∧ ∀ p ∈ st.domains, GoodEntry p.2

/-- A successful registry lookup returns the attribute of some
registered entry. -/
lemma lookupDomain_good (ds : List (String × Option Chain)) (d : String)
    (tr : Option Chain) (hgood : ∀ p ∈ ds, GoodEntry p.2)
    (h : lookupDomain ds d = some tr) : GoodEntry tr := by
  unfold lookupDomain at h
  cases hf : ds.find? (fun p => p.1 == d) with
  | none => rw [hf] at h; cases h
  | some p =>
    rw [hf] at h
    have hmem : p ∈ ds := List.mem_of_find?_eq_some hf
    have := hgood p hmem
    simpa [← Option.some_inj.mp h] using this

/-- The new preference computed by `set_languages` always contains the
universal tag. -/
lemma computeLanguages_mem_C (args : List String) (env : String → Option String) :
    "C" ∈ computeLanguages args env := by
  unfold computeLanguages withUniversal
  cases hc : (if args.isEmpty then envLanguages env else args).contains "C" with
  | true =>
    simp only [hc, if_true]
    simpa using hc
  | false =>
    simp only [hc, Bool.false_eq_true, if_false]
    exact List.mem_append_right _ (List.mem_cons_self "C" [])

/-- A registry whose entries are all good stays all good through a
rebuild, whether or not an exception escapes. -/
lemma rebuildDomains_good (fs : FS) (langs : List String)
    (ds : List (String × Option Chain)) (hgood : ∀ p ∈ ds, GoodEntry p.2) :
    ∀ p ∈ (rebuildDomains fs langs ds).1, GoodEntry p.2 := by
  induction ds with
  | nil => simp [rebuildDomains]
  | cons p0 rest ih =>
    obtain ⟨d0, tr0⟩ := p0
    obtain ⟨c0, hc0, hc0ne⟩ := hgood (d0, tr0) (List.mem_cons_self _ rest)
    have hrest : ∀ p ∈ rest, GoodEntry p.2 :=
      fun p hp => hgood p (List.mem_cons_of_mem _ hp)
    have hnew : GoodEntry (domainSetLanguages fs langs d0 tr0).1 :=
      setLanguagesGo_keep _ tr0 true c0 hc0 hc0ne
    intro p hp
    cases hres : (domainSetLanguages fs langs d0 tr0).2 with
    | true =>
      rw [show (rebuildDomains fs langs ((d0, tr0) :: rest)).1 =
        (d0, (domainSetLanguages fs langs d0 tr0).1) :: rest by
          simp [rebuildDomains, hres]] at hp
      rcases List.mem_cons.mp hp with h1 | h2
      · rw [h1]; exact hnew
      · exact hrest p h2
    | false =>
      rw [show (rebuildDomains fs langs ((d0, tr0) :: rest)).1 =
        (d0, (domainSetLanguages fs langs d0 tr0).1) ::
          (rebuildDomains fs langs rest).1 by simp [rebuildDomains, hres]] at hp
      rcases List.mem_cons.mp hp with h1 | h2
      · rw [h1]; exact hnew
      · exact ih hrest p h2

/-- Every state reachable through the public interface satisfies the
invariant. -/
lemma reachable_good (st : I18nState) (h : Reachable st) : GoodState st := by
  induction h with
  | init =>
    constructor
    · simp [initState]
    · intro p hp
      simp [initState] at hp
  | set fs env args st0 _ ih =>
    constructor
    · exact computeLanguages_mem_C args env
    · intro p hp
      exact rebuildDomains_good fs (computeLanguages args env) st0.domains ih.2 p hp
  | translator fs domain st0 _ ih =>
    unfold domainTranslator
    cases hf : lookupDomain st0.domains domain with
    | some tr => simpa [hf] using ih
    | none =>
      cases hres : (domainSetLanguages fs st0.languages domain none).2 with
      | true => simpa [hf, hres] using ih
      | false =>
        have hpaths : findCatalogs fs st0.languages domain ≠ [] :=
          findCatalogs_ne_nil fs st0.languages domain ih.1
        have hnew : GoodEntry (domainSetLanguages fs st0.languages domain none).1 :=
          setLanguagesGo_fresh _ none hpaths hres
        refine ⟨by simpa [hf, hres] using ih.1, ?_⟩
        intro p hp
        rcases (by simpa [hres] using hp :
            p ∈ st0.domains ∨
              p = (domain, (domainSetLanguages fs st0.languages domain none).1)) with h1 | h2
        · exact ih.2 p h1
        · rw [h2]
          exact hnew

/-! ### Remaining helper lemmas -/

/-- Without the universal tag among the variants, the per-tag search
records exactly the variants that have an existing catalog file, in
order. -/
lemma searchSpecs_filterMap (fs : FS) (dom : String) (specs : List String)
    (h : "C" ∉ specs) :
    searchSpecs fs dom specs = specs.filterMap
      (fun spec => if fs.dirExists spec then Option.map some (fs.moFile spec dom)
        else none) := by
  induction specs with
  | nil => simp [searchSpecs]
  | cons spec rest ih =>
    have hs : spec ≠ "C" := fun he => h (he ▸ List.mem_cons_self spec rest)
    have hb : (spec == "C") = false := by simpa using hs
    have hrest := ih (fun hr => h (List.mem_cons_of_mem _ hr))
    cases hd : fs.dirExists spec with
    | false => simp [searchSpecs, hb, hd, List.filterMap_cons, hrest]
    | true =>
      cases hm : fs.moFile spec dom with
      | none => simp [searchSpecs, hb, hd, hm, List.filterMap_cons, hrest]
      | some c => simp [searchSpecs, hb, hd, hm, List.filterMap_cons, hrest]

/-- A tag none of whose variants is the universal tag or has a locale
package with an existing catalog file contributes nothing to the
search. -/
lemma searchSpecs_nil (fs : FS) (dom : String) (specs : List String)
    (hC : "C" ∉ specs)
    (h : ∀ spec ∈ specs, fs.dirExists spec = false ∨ fs.moFile spec dom = none) :
    searchSpecs fs dom specs = [] := by
  rw [searchSpecs_filterMap fs dom specs hC]
  induction specs with
  | nil => simp
  | cons spec rest ih =>
    have hrest := ih (fun hr => hC (List.mem_cons_of_mem _ hr))
      (fun s hs => h s (List.mem_cons_of_mem _ hs))
    rcases h spec (List.mem_cons_self spec rest) with h1 | h1 <;>
      simp [List.filterMap_cons, h1, hrest]

/-- A translator call reads the current attribute of the registry
entry it is bound to (`gettext`). -/
lemma callGettext_eq (st : I18nState) (d : String) (tr : Option Chain) (m : String)
    (h : lookupDomain st.domains d = some tr) :
    callGettext st d m = Option.map (fun chain => chainGettext chain m) tr := by
  unfold callGettext
  rw [h]
  cases tr <;> rfl

/-- A translator call reads the current attribute of the registry
entry it is bound to (`ngettext`). -/
lemma callNgettext_eq (st : I18nState) (d : String) (tr : Option Chain)
    (s p : String) (n : Int) (h : lookupDomain st.domains d = some tr) :
    callNgettext st d s p n = Option.map (fun chain => chainNgettext chain s p n) tr := by
  unfold callNgettext
  rw [h]
  cases tr <;> rfl

/-- A translator call reads the current attribute of the registry
entry it is bound to (`pgettext`). -/
lemma callPgettext_eq (st : I18nState) (d : String) (tr : Option Chain)
    (context m : String) (h : lookupDomain st.domains d = some tr) :
    callPgettext st d context m =
      Option.map (fun chain => chainPgettext chain context m) tr := by
  unfold callPgettext
  rw [h]
  cases tr <;> rfl

/-- A translator call reads the current attribute of the registry
entry it is bound to (`npgettext`). -/
lemma callNpgettext_eq (st : I18nState) (d : String) (tr : Option Chain)
    (context s p : String) (n : Int) (h : lookupDomain st.domains d = some tr) :
    callNpgettext st d context s p n =
      Option.map (fun chain => chainNpgettext chain context s p n) tr := by
  unfold callNpgettext
  rw [h]
  cases tr <;> rfl

/-- An unset-or-empty predicate for environment variables: Python
`os.environ.get` returning a falsy value. -/
def unsetOrEmpty (o : Option String) : Prop :=
  o = none ∨ o = some ""

/-- The environment loop skips a variable that is unset or empty. -/
lemma envGo_skip (env : String → Option String) (name : String) (rest : List String)
    (h : unsetOrEmpty (env name)) :
    envLanguagesGo env (name :: rest) = envLanguagesGo env rest := by
  rcases h with h | h <;> simp [envLanguagesGo, h]

/-- The environment loop stops at a variable that is set and non-empty
and splits its value on `":"`. -/
lemma envGo_hit (env : String → Option String) (name : String) (rest : List String)
    (v : String) (h : env name = some v) (hv : v ≠ "") :
    envLanguagesGo env (name :: rest) = strSplit v ':' := by
  simp [envLanguagesGo, h, hv]

/-! ### The claims -/

/-- Claim C1: the claim (and the docstring of `_find_catalogs`, lines
23-24 and 38-39 of `support.py`) states that once an expanded variant
equals the universal tag `"C"`, the `None` sentinel is appended and all
further searching stops, across the remaining preferred languages too.
The code's `break` only leaves the inner loop over the variants of the
current language, and the outer loop over the remaining languages
continues.  This theorem evaluates the embedded `_find_catalogs` at the
failing input: under the preference `["C", "xx"]` with a catalog
installed for `xx`, the sentinel is recorded and the search nevertheless
continues into the following preferred language and records its catalog,
contradicting the claim and the function's own documentation. -/
theorem C1_code_eval :
    findCatalogs fsXX ["C", "xx"] "dom" = [none, some (CatFile.good catXX)] := rfl

/-- Claim C2, counterexample: under the single preferred tag
`"xx_YY"`, whose expansion is `["xx_YY", "xx"]`, with catalogs installed
for both variants, the search records two catalogs for that one
preferred language tag — there is no break after the first hit, so "at
most one catalog per preferred language tag" is false. -/
theorem C2_counterexample :
    findCatalogs fsVariants ["xx_YY"] "dom" =
      [some (CatFile.good catXXYY), some (CatFile.good catXX)] ∧
    (findCatalogs fsVariants ["xx_YY"] "dom").length = 2 := ⟨rfl, rfl⟩

/-- Claim C2, amended: after a catalog is found for one expanded
variant, the search continues through the remaining less specific
variants of the same tag, recording a catalog for every variant that
has one (most specific first), before moving to the next preferred
language. -/
theorem C2_variants_all_recorded (fs : FS) (domain language : String)
    (rest : List String) (h : "C" ∉ expandLang language) :
    findCatalogs fs (language :: rest) domain =
      (expandLang language).filterMap
        (fun spec => if fs.dirExists spec then Option.map some (fs.moFile spec domain)
          else none) ++ findCatalogs fs rest domain := by
  show searchSpecs fs domain (expandLang language) ++ findCatalogs fs rest domain = _
  rw [searchSpecs_filterMap fs domain (expandLang language) h]

/-- Witness for C2: at the concrete preference `["xx_YY"]` the amended
statement instantiates, its hypothesis holding by evaluation. -/
theorem C2_witness :
    ("C" ∉ expandLang "xx_YY") ∧
    findCatalogs fsVariants ["xx_YY"] "dom" =
      (expandLang "xx_YY").filterMap
        (fun spec =>
          if fsVariants.dirExists spec then Option.map some (fsVariants.moFile spec "dom")
          else none) ++ findCatalogs fsVariants [] "dom" :=
  ⟨by decide, C2_variants_all_recorded fsVariants "dom" "xx_YY" [] (by decide)⟩

/-- Claim C3, counterexample: the code can build the chain
`[NullTranslations, GNUTranslations(xx)]` (preference `["C", "xx"]` with
an `xx` catalog installed), and on that chain the entry placed after
the identity entry answers the lookup: `gettext("msg")` returns the
`xx` translation, not `"msg"`.  `NullTranslations` delegates to its
fallback whenever it has one, so an identity entry is not a chain
terminator and later entries do influence results. -/
theorem C3_counterexample :
    (domainSetLanguages fsXX ["C", "xx"] "dom" none).1 =
      some [Entry.null, Entry.gnu catXX] ∧
    chainGettext [Entry.null, Entry.gnu catXX] "msg" = "xx says msg" ∧
    "xx says msg" ≠ "msg" := ⟨rfl, rfl, by decide⟩

/-- Claim C3, amended: an identity entry returns its input unchanged
only when it is the last entry of the chain; an identity entry followed
by further entries delegates all four lookup operations to them
unchanged, so entries after an identity entry can influence the
result. -/
theorem C3_identity_delegates (fb : Chain) (context s p message : String) (n : Int)
    (h : fb ≠ []) :
    chainGettext (Entry.null :: fb) message = chainGettext fb message ∧
    chainNgettext (Entry.null :: fb) s p n = chainNgettext fb s p n ∧
    chainPgettext (Entry.null :: fb) context message = chainPgettext fb context message ∧
    chainNpgettext (Entry.null :: fb) context s p n = chainNpgettext fb context s p n := by
  cases fb with
  | nil => exact absurd rfl h
  | cons e rest => exact ⟨rfl, rfl, rfl, rfl⟩

/-- Witness for C3: the amended statement instantiated at the concrete
fallback `[GNUTranslations(xx)]`. -/
theorem C3_witness :
    (([Entry.gnu catXX] : Chain) ≠ []) ∧
    (chainGettext [Entry.null, Entry.gnu catXX] "other" =
        chainGettext [Entry.gnu catXX] "other" ∧
      chainNgettext [Entry.null, Entry.gnu catXX] "s" "p" 2 =
        chainNgettext [Entry.gnu catXX] "s" "p" 2 ∧
      chainPgettext [Entry.null, Entry.gnu catXX] "ctx" "other" =
        chainPgettext [Entry.gnu catXX] "ctx" "other" ∧
      chainNpgettext [Entry.null, Entry.gnu catXX] "ctx" "s" "p" 2 =
        chainNpgettext [Entry.gnu catXX] "ctx" "s" "p" 2) :=
  ⟨List.cons_ne_nil _ _,
   C3_identity_delegates [Entry.gnu catXX] "ctx" "s" "p" "other" 2 (List.cons_ne_nil _ _)⟩

/-- Claim C4: when `set_languages` returns (that is, no exception
escaped the rebuild), every domain already present in the registry has
been rebuilt, synchronously and in place, from the new language
preference, and every translator previously obtained — a bound method
reading the registry entry's current attribute — observes the rebuilt
chain on its next call without re-acquisition, for all four lookup
shapes. -/
theorem C4_synchronous_rebuild (fs : FS) (env : String → Option String)
    (args : List String) (st : I18nState)
    (h : (setLanguages fs env args st).2 = false) :
    (setLanguages fs env args st).1.languages = computeLanguages args env ∧
    (setLanguages fs env args st).1.domains =
      st.domains.map (fun p =>
        (p.1, (domainSetLanguages fs (computeLanguages args env) p.1 p.2).1)) ∧
    (∀ domain tr message, lookupDomain st.domains domain = some tr →
      callGettext (setLanguages fs env args st).1 domain message =
        Option.map (fun c => chainGettext c message)
          (domainSetLanguages fs (computeLanguages args env) domain tr).1) ∧
    (∀ domain tr s p n, lookupDomain st.domains domain = some tr →
      callNgettext (setLanguages fs env args st).1 domain s p n =
        Option.map (fun c => chainNgettext c s p n)
          (domainSetLanguages fs (computeLanguages args env) domain tr).1) ∧
    (∀ domain tr context message, lookupDomain st.domains domain = some tr →
      callPgettext (setLanguages fs env args st).1 domain context message =
        Option.map (fun c => chainPgettext c context message)
          (domainSetLanguages fs (computeLanguages args env) domain tr).1) ∧
    (∀ domain tr context s p n, lookupDomain st.domains domain = some tr →
      callNpgettext (setLanguages fs env args st).1 domain context s p n =
        Option.map (fun c => chainNpgettext c context s p n)
          (domainSetLanguages fs (computeLanguages args env) domain tr).1) := by
  have herr : (rebuildDomains fs (computeLanguages args env) st.domains).2 = false := h
  have hdom : (setLanguages fs env args st).1.domains =
      st.domains.map (fun p =>
        (p.1, (domainSetLanguages fs (computeLanguages args env) p.1 p.2).1)) :=
    rebuildDomains_ok fs (computeLanguages args env) st.domains herr
  have hlook : ∀ domain tr, lookupDomain st.domains domain = some tr →
      lookupDomain (setLanguages fs env args st).1.domains domain =
        some ((domainSetLanguages fs (computeLanguages args env) domain tr).1) := by
    intro domain tr hl
    rw [hdom, lookupDomain_map st.domains
      (fun d tr2 => (domainSetLanguages fs (computeLanguages args env) d tr2).1), hl]
    rfl
  refine ⟨rfl, hdom, ?_, ?_, ?_, ?_⟩
  · intro domain tr message hl
    exact callGettext_eq _ domain _ message (hlook domain tr hl)
  · intro domain tr s p n hl
    exact callNgettext_eq _ domain _ s p n (hlook domain tr hl)
  · intro domain tr context message hl
    exact callPgettext_eq _ domain _ context message (hlook domain tr hl)
  · intro domain tr context s p n hl
    exact callNpgettext_eq _ domain _ context s p n (hlook domain tr hl)

/-- Witness for C4: a state holding the domain `dom`, rebuilt by
`set_languages("de")` against resources with no `de` catalogs; the
previously issued `gettext` translator sees the rebuilt identity chain
and answers `"msg"` unchanged. -/
theorem C4_witness :
    ((setLanguages fsXX envNone ["de"] stOneDomain).2 = false) ∧
    callGettext (setLanguages fsXX envNone ["de"] stOneDomain).1 "dom" "msg" =
      some "msg" :=
  ⟨rfl,
   (C4_synchronous_rebuild fsXX envNone ["de"] stOneDomain rfl).2.2.1
     "dom" (some [Entry.null]) "msg" rfl⟩

/-- Claim C5: with no catalog installed for the domain under any
variant of any active language, and the universal tag among the active
languages (as the module guarantees), the rebuilt chain consists only
of identity entries and the plain lookup returns every message
unchanged. -/
theorem C5_identity_lookup (fs : FS) (domain : String) (languages : List String)
    (translations : Option Chain) (message : String)
    (hC : "C" ∈ languages)
    (hno : ∀ l ∈ languages, ∀ spec ∈ expandLang l, fs.moFile spec domain = none) :
    Option.map (fun chain => chainGettext chain message)
      (domainSetLanguages fs languages domain translations).1 = some message := by
  have hall : ∀ e ∈ findCatalogs fs languages domain, e = none :=
    findCatalogs_all_none fs languages domain hno
  have hne : findCatalogs fs languages domain ≠ [] :=
    findCatalogs_ne_nil fs languages domain hC
  obtain ⟨c2, hres, hc2ne, hc2null⟩ :=
    setLanguagesGo_top_all_null (findCatalogs fs languages domain) translations hne hall
  rw [show (domainSetLanguages fs languages domain translations).1 = some c2 by
    unfold domainSetLanguages; rw [hres]]
  simp [chainGettext_all_null c2 message hc2ne hc2null]

/-- Witness for C5: the initial preference `["C"]` with no catalogs at
all gives `gettext("hello") == "hello"`. -/
theorem C5_witness :
    ("C" ∈ (["C"] : List String)) ∧
    Option.map (fun chain => chainGettext chain "hello")
      (domainSetLanguages fsEmpty ["C"] "dom" none).1 = some "hello" :=
  ⟨by decide,
   C5_identity_lookup fsEmpty "dom" ["C"] none "hello" (by decide)
     (fun _ _ _ _ => rfl)⟩

/-- Claim C6, counterexample: rebuilding under the preference
`["xx", "yy", "C"]`, where the `xx` catalog is good and the `yy`
catalog file is corrupt, raises after the first load — and at that
point the registry entry's attribute has already been replaced by the
one-entry prefix `[GNUTranslations(xx)]` of the three-entry new chain,
losing the old chain `[NullTranslations]`.  The partial update is
observable to every caller after the failed call, so the rebuild is not
atomic. -/
theorem C6_counterexample :
    domainSetLanguages fsCorrupt ["xx", "yy", "C"] "dom" (some [Entry.null]) =
      (some [Entry.gnu catXX], true) ∧
    (findCatalogs fsCorrupt ["xx", "yy", "C"] "dom").length = 3 := ⟨rfl, rfl⟩

/-- Claim C6, amended: only a rebuild in which every located catalog
loads successfully is atomic in effect — it returns without error and
replaces the chain with exactly the loaded entries, in order (keeping
the old attribute when the search found nothing).  When a load fails
partway, the exception escapes and the registry entry is left holding
the partial new chain built so far, as the counterexample shows. -/
theorem C6_rebuild_success_replaces (fs : FS) (languages : List String)
    (domain : String) (translations : Option Chain)
    (h : ∀ p ∈ findCatalogs fs languages domain, p ≠ some CatFile.corrupt) :
    domainSetLanguages fs languages domain translations =
      (if (findCatalogs fs languages domain).isEmpty then translations
       else some ((findCatalogs fs languages domain).filterMap loadEntry), false) := by
  unfold domainSetLanguages
  cases hpaths : findCatalogs fs languages domain with
  | nil => simp [setLanguagesGo]
  | cons p rest =>
    rw [hpaths] at h
    have hrest : ∀ q ∈ rest, q ≠ some CatFile.corrupt :=
      fun q hq => h q (List.mem_cons_of_mem _ hq)
    have hp : p ≠ some CatFile.corrupt := h p (List.mem_cons_self p rest)
    cases p with
    | none =>
      have := setLanguagesGo_append_ok rest [Entry.null] hrest
      simpa [setLanguagesGo, loadEntry, List.filterMap_cons] using this
    | some cf =>
      cases cf with
      | good g =>
        have := setLanguagesGo_append_ok rest [Entry.gnu g] hrest
        simpa [setLanguagesGo, loadEntry, List.filterMap_cons] using this
      | corrupt => exact absurd rfl hp

/-- Witness for C6: under `["C", "xx"]` with a good `xx` catalog, no
file is corrupt, the rebuild returns without error, and the chain is
replaced by exactly the two loaded entries. -/
theorem C6_witness :
    (∀ p ∈ findCatalogs fsXX ["C", "xx"] "dom", p ≠ some CatFile.corrupt) ∧
    domainSetLanguages fsXX ["C", "xx"] "dom" none =
      (some [Entry.null, Entry.gnu catXX], false) := by
  have hval : findCatalogs fsXX ["C", "xx"] "dom" =
      [none, some (CatFile.good catXX)] := rfl
  have hcor : ∀ p ∈ findCatalogs fsXX ["C", "xx"] "dom",
      p ≠ some CatFile.corrupt := by
    rw [hval]
    intro p hp
    rcases List.mem_cons.mp hp with h1 | h2
    · subst h1; simp
    · have : p = some (CatFile.good catXX) := by simpa using h2
      subst this
      simp
  exact ⟨hcor, C6_rebuild_success_replaces fsXX ["C", "xx"] "dom" none hcor⟩

/-- Claim C7, counterexample: a completed call
`set_languages("C", "C")` leaves the preference `["C", "C"]` — the code
only appends `"C"` when absent and never deduplicates, so the universal
tag is present twice, not exactly once. -/
theorem C7_counterexample :
    ((setLanguages fsEmpty envNone ["C", "C"] initState).2 = false) ∧
    ((setLanguages fsEmpty envNone ["C", "C"] initState).1.languages.count "C" = 2) :=
  ⟨rfl, rfl⟩

/-- Claim C7, amended: after every completed `set_languages` call the
preference contains the universal tag at least once; when the
caller-supplied (or environment-derived) list does not already contain
`"C"`, it is appended as the final entry and then occurs exactly
once. -/
theorem C7_universal_membership (fs : FS) (env : String → Option String)
    (args : List String) (st : I18nState) :
    "C" ∈ (setLanguages fs env args st).1.languages ∧
    ("C" ∉ (if args.isEmpty then envLanguages env else args) →
      (setLanguages fs env args st).1.languages =
        (if args.isEmpty then envLanguages env else args) ++ ["C"] ∧
      (setLanguages fs env args st).1.languages.count "C" = 1) := by
  constructor
  · exact computeLanguages_mem_C args env
  · intro hnot
    have hb : ((if args.isEmpty then envLanguages env else args).contains "C") = false := by
      cases hc : ((if args.isEmpty then envLanguages env else args).contains "C") with
      | false => rfl
      | true => exact absurd (by simpa using hc) hnot
    have heq : (setLanguages fs env args st).1.languages =
        (if args.isEmpty then envLanguages env else args) ++ ["C"] := by
      show computeLanguages args env = _
      unfold computeLanguages withUniversal
      rw [hb]
      simp
    refine ⟨heq, ?_⟩
    rw [heq, List.count_append, List.count_eq_zero.mpr hnot]
    simp

/-- Witness for C7: `set_languages("de")` from the initial state leaves
the preference `["de", "C"]`, with the universal tag appended last and
occurring exactly once. -/
theorem C7_witness :
    ("C" ∉ (["de"] : List String)) ∧
    "C" ∈ (setLanguages fsEmpty envNone ["de"] initState).1.languages ∧
    (setLanguages fsEmpty envNone ["de"] initState).1.languages = ["de"] ++ ["C"] ∧
    (setLanguages fsEmpty envNone ["de"] initState).1.languages.count "C" = 1 := by
  have h := C7_universal_membership fsEmpty envNone ["de"] initState
  have hnot : "C" ∉ (["de"] : List String) := by decide
  exact ⟨hnot, h.1, (h.2 hnot).1, (h.2 hnot).2⟩

/-- Claim C8: in every state reachable through the public interface
(any sequence of `set_languages` calls and translator requests,
exceptions included), every registered domain's `translations`
attribute is set and holds a non-empty chain, and all four lookup
operations on such a domain return a string — they never raise.  The
universal tag is always in the preference, so the search always yields
at least the identity sentinel and the first completed rebuild of a
domain sets its attribute; later failed rebuilds leave a non-empty
chain in place. -/
theorem C8_lookups_total (st : I18nState) (domain : String) (tr : Option Chain)
    (hr : Reachable st) (h : lookupDomain st.domains domain = some tr) :
    ∃ chain, tr = some chain ∧ chain ≠ [] ∧
      (∀ message, callGettext st domain message = some (chainGettext chain message)) ∧
      (∀ s p n, callNgettext st domain s p n = some (chainNgettext chain s p n)) ∧
      (∀ context message, callPgettext st domain context message =
        some (chainPgettext chain context message)) ∧
      (∀ context s p n, callNpgettext st domain context s p n =
        some (chainNpgettext chain context s p n)) := by
  obtain ⟨chain, htr, hne⟩ :=
    lookupDomain_good st.domains domain tr (reachable_good st hr).2 h
  subst htr
  refine ⟨chain, rfl, hne, ?_, ?_, ?_, ?_⟩
  · intro message
    rw [callGettext_eq st domain (some chain) message h]
    rfl
  · intro s p n
    rw [callNgettext_eq st domain (some chain) s p n h]
    rfl
  · intro context message
    rw [callPgettext_eq st domain (some chain) context message h]
    rfl
  · intro context s p n
    rw [callNpgettext_eq st domain (some chain) context s p n h]
    rfl

/-- Witness for C8: the reachable state holding the domain `dom` with
the identity chain; all four lookups answer. -/
theorem C8_witness :
    (lookupDomain stOneDomain.domains "dom" = some (some [Entry.null])) ∧
    ∃ chain, (some [Entry.null] : Option Chain) = some chain ∧ chain ≠ [] ∧
      (∀ message, callGettext stOneDomain "dom" message =
        some (chainGettext chain message)) ∧
      (∀ s p n, callNgettext stOneDomain "dom" s p n =
        some (chainNgettext chain s p n)) ∧
      (∀ context message, callPgettext stOneDomain "dom" context message =
        some (chainPgettext chain context message)) ∧
      (∀ context s p n, callNpgettext stOneDomain "dom" context s p n =
        some (chainNpgettext chain context s p n)) :=
  ⟨rfl,
   C8_lookups_total stOneDomain "dom" (some [Entry.null])
     (Reachable.translator fsEmpty "dom" initState Reachable.init) rfl⟩

/-- Claim C9: called with no arguments, `set_languages` takes the
preference from the first set and non-empty variable among `LANGUAGE`,
`LC_ALL`, `LC_MESSAGES`, `LANG`, in exactly that priority order, split
on `":"` (the universal tag is then appended unless already present,
per lines 222-224); when none is set and non-empty the preference
becomes just `["C"]`. -/
theorem C9_env_priority (fs : FS) (env : String → Option String) (st : I18nState) :
    (∀ v, env "LANGUAGE" = some v → v ≠ "" →
      (setLanguages fs env [] st).1.languages = withUniversal (strSplit v ':')) ∧
    (∀ v, unsetOrEmpty (env "LANGUAGE") → env "LC_ALL" = some v → v ≠ "" →
      (setLanguages fs env [] st).1.languages = withUniversal (strSplit v ':')) ∧
    (∀ v, unsetOrEmpty (env "LANGUAGE") → unsetOrEmpty (env "LC_ALL") →
      env "LC_MESSAGES" = some v → v ≠ "" →
      (setLanguages fs env [] st).1.languages = withUniversal (strSplit v ':')) ∧
    (∀ v, unsetOrEmpty (env "LANGUAGE") → unsetOrEmpty (env "LC_ALL") →
      unsetOrEmpty (env "LC_MESSAGES") → env "LANG" = some v → v ≠ "" →
      (setLanguages fs env [] st).1.languages = withUniversal (strSplit v ':')) ∧
    (unsetOrEmpty (env "LANGUAGE") → unsetOrEmpty (env "LC_ALL") →
      unsetOrEmpty (env "LC_MESSAGES") → unsetOrEmpty (env "LANG") →
      (setLanguages fs env [] st).1.languages = ["C"]) := by
  refine ⟨?_, ?_, ?_, ?_, ?_⟩
  · intro v h hv
    show withUniversal (envLanguages env) = _
    unfold envLanguages
    rw [envGo_hit env "LANGUAGE" _ v h hv]
  · intro v h1 h hv
    show withUniversal (envLanguages env) = _
    unfold envLanguages
    rw [envGo_skip env "LANGUAGE" _ h1, envGo_hit env "LC_ALL" _ v h hv]
  · intro v h1 h2 h hv
    show withUniversal (envLanguages env) = _
    unfold envLanguages
    rw [envGo_skip env "LANGUAGE" _ h1, envGo_skip env "LC_ALL" _ h2,
      envGo_hit env "LC_MESSAGES" _ v h hv]
  · intro v h1 h2 h3 h hv
    show withUniversal (envLanguages env) = _
    unfold envLanguages
    rw [envGo_skip env "LANGUAGE" _ h1, envGo_skip env "LC_ALL" _ h2,
      envGo_skip env "LC_MESSAGES" _ h3, envGo_hit env "LANG" _ v h hv]
  · intro h1 h2 h3 h4
    show withUniversal (envLanguages env) = _
    unfold envLanguages
    rw [envGo_skip env "LANGUAGE" _ h1, envGo_skip env "LC_ALL" _ h2,
      envGo_skip env "LC_MESSAGES" _ h3, envGo_skip env "LANG" _ h4]
    rfl

/-- Witness for C9: with only `LC_ALL="de:fr"` set, the preference
becomes `["de", "fr", "C"]`. -/
theorem C9_witness :
    (unsetOrEmpty (envLCAll "LANGUAGE")) ∧
    (envLCAll "LC_ALL" = some "de:fr") ∧
    (setLanguages fsEmpty envLCAll [] initState).1.languages = ["de", "fr", "C"] :=
  ⟨Or.inl rfl, rfl,
   (C9_env_priority fsEmpty envLCAll initState).2.1 "de:fr" (Or.inl rfl) rfl
     (by decide)⟩

/-- Claim C10, counterexample: the expansion is not free of
normalization — `gettext._expand_lang` first canonicalises the tag
through `locale.normalize`, so the upper-case input `"DE"` expands to
the lower-case canonical variants, none of which preserves the input's
case (the input itself is not even among its own expansion). -/
theorem C10_counterexample :
    expandLang "DE" = ["de_DE.ISO8859-1", "de_DE", "de.ISO8859-1", "de"] ∧
    "DE" ∉ expandLang "DE" := ⟨by decide, by decide⟩

/-- Claim C10, amended: expansion first normalizes the tag through the
locale alias database (lower-casing and canonicalising known tags);
a tag unknown to the database is kept unchanged.  A malformed or
unknown tag is not an error: when none of its variants is the universal
tag or has an existing catalog, the tag contributes nothing and the
search silently continues with the remaining preferred languages. -/
theorem C10_unknown_tag_skipped (fs : FS) (domain language : String)
    (rest : List String) (hC : "C" ∉ expandLang language)
    (h : ∀ spec ∈ expandLang language,
      fs.dirExists spec = false ∨ fs.moFile spec domain = none) :
    findCatalogs fs (language :: rest) domain = findCatalogs fs rest domain := by
  show searchSpecs fs domain (expandLang language) ++ findCatalogs fs rest domain = _
  rw [searchSpecs_nil fs domain (expandLang language) hC h]
  simp

/-- Witness for C10: the unknown tag `"ZZ"` (kept unchanged by the
alias database) matches nothing and is silently skipped. -/
theorem C10_witness :
    ("C" ∉ expandLang "ZZ") ∧
    findCatalogs fsEmpty ["ZZ", "C"] "dom" = findCatalogs fsEmpty ["C"] "dom" :=
  ⟨by decide,
   C10_unknown_tag_skipped fsEmpty "dom" "ZZ" ["C"] (by decide)
     (fun _ _ => Or.inl rfl)⟩
